import Mathlib

/- Verification of the ml4devs linear-model trainers.

   The repository contains a dense linear-regression trainer
   (pkg/ml/ml.go), a sparse hashed-feature text classifier
   (cmd/language/test, package ml), an n-gram expander, CSV ingestion and
   JSON model persistence.  Go float64 arithmetic is modelled by exact
   rationals; the reported per-epoch loss, which takes a square root, is
   modelled in the reals. -/

set_option maxRecDepth 8000

deriving instance DecidableEq for Except

namespace ml

/-- Example from pkg/ml/ml.go: a dense feature vector and a label. -/
structure Example where
  features : List ℚ
  label : ℚ
  deriving DecidableEq, Inhabited

/-- Model from pkg/ml/ml.go: bias, coefficients and the per-feature
minimum and maximum captured at training time. -/
structure Model where
  bias : ℚ
  coeficients : List ℚ
  minFeatureValues : List ℚ
  maxFeatureValues : List ℚ
  deriving DecidableEq, Inhabited

/-- Predict from pkg/ml/ml.go: bias plus the dot product of the
coefficients with the features, looping over the feature positions. -/
def Predict (model : Model) (ex : Example) : ℚ :=
  (List.range ex.features.length).foldl
    (fun result i => result + model.coeficients.getD i 0 * ex.features.getD i 0)
    model.bias

/-- Value of math.MaxFloat64, used by NormalizeDataSetFeatures to seed the
running minima and maxima. -/
def maxFloat64 : ℚ := (((2 ^ 53 - 1) * 2 ^ 971 : ℕ) : ℚ)

/-- Embedding of math.Max on float64 arguments. -/
def fmax (a b : ℚ) : ℚ := if a ≤ b then b else a

/-- Embedding of math.Min on float64 arguments. -/
def fmin (a b : ℚ) : ℚ := if a ≤ b then a else b

/-- Loop of NormalizeDataSetFeatures from pkg/ml/ml.go that scans the data
set updating the running element-wise maxima and minima, failing when an
example has fewer features than the first one.  The Go code returns the
pair (minValues, maxValues). -/
def fitLoop : List Example → List ℚ → List ℚ → Except String (List ℚ × List ℚ)
  | [], maxValues, minValues => .ok (minValues, maxValues)
  | ex :: rest, maxValues, minValues =>
    if ex.features.length < maxValues.length then
      .error "expected features"
    else
      fitLoop rest
        (maxValues.mapIdx fun j m => fmax m (ex.features.getD j 0))
        (minValues.mapIdx fun j m => fmin m (ex.features.getD j 0))

/-- Min/max scan of NormalizeDataSetFeatures from pkg/ml/ml.go, starting
from minus/plus math.MaxFloat64, for n features. -/
def fitMinMax (dataSet : List Example) (n : ℕ) : Except String (List ℚ × List ℚ) :=
  fitLoop dataSet (List.replicate n (-maxFloat64)) (List.replicate n maxFloat64)

/-- NormalizeDatasetFeaturesWithLimits from pkg/ml/ml.go: rescales every
feature value to (value - min) / (max - min), with no guard on the
denominator.  The Go code mutates the data set in place; the embedding
returns the mutated data set. -/
def NormalizeDatasetFeaturesWithLimits (dataSet : List Example)
    (maxValues minValues : List ℚ) : List Example :=
  dataSet.map fun ex =>
    { ex with
      features := ex.features.mapIdx fun j v =>
        if j < maxValues.length then
          (v - minValues.getD j 0) / (maxValues.getD j 0 - minValues.getD j 0)
        else v }

/-- NormalizeDataSetFeatures from pkg/ml/ml.go: fails on an empty data
set, otherwise fits the limits and rescales in place, returning the pair
of limit vectors together with the mutated data set. -/
def NormalizeDataSetFeatures (dataSet : List Example) :
    Except String (List ℚ × List ℚ × List Example) :=
  match dataSet with
  | [] => .error "empty data set"
  | d0 :: rest =>
    match fitMinMax (d0 :: rest) d0.features.length with
    | .error e => .error e
    | .ok (minValues, maxValues) =>
      .ok (minValues, maxValues,
        NormalizeDatasetFeaturesWithLimits (d0 :: rest) maxValues minValues)

/-- Body of the inner training loop of Train from pkg/ml/ml.go: one
example updates the model and the running sum of squared errors. -/
def trainStep (learningRate : ℚ) (acc : Model × ℚ) (ex : Example) : Model × ℚ :=
  let model := acc.1
  let prediction := Predict model ex
  let error := prediction - ex.label
  ({ model with
      bias := model.bias - learningRate * error
      coeficients := model.coeficients.mapIdx fun j c =>
        c - learningRate * error * ex.features.getD j 0 },
    acc.2 + error * error)

/-- One epoch of Train from pkg/ml/ml.go: a pass over the data set in
order, starting the squared-error accumulator at zero. -/
def trainEpoch (learningRate : ℚ) (dataSet : List Example) (model : Model) : Model × ℚ :=
  dataSet.foldl (trainStep learningRate) (model, 0)

/-- Epoch loop of Train from pkg/ml/ml.go, also collecting the per-epoch
sums of squared errors whose square-rooted means the Go code prints. -/
def trainLoop (learningRate : ℚ) (dataSet : List Example) : ℕ → Model → Model × List ℚ
  | 0, model => (model, [])
  | numEpochs + 1, model =>
    let p := trainEpoch learningRate dataSet model
    let r := trainLoop learningRate dataSet numEpochs p.1
    (r.1, p.2 :: r.2)

/-- Train from pkg/ml/ml.go: normalizes the data set in place, builds the
zero model sized from the first example, and runs the epoch loop.  The
second component of the result is the caller's data set after the call. -/
def Train (dataSet : List Example) (learningRate : ℚ) (numEpochs : ℕ) :
    Except String (Model × List Example) :=
  match NormalizeDataSetFeatures dataSet with
  | .error e => .error e
  | .ok (minValues, maxValues, normalized) =>
    let model0 : Model :=
      { bias := 0
        coeficients := List.replicate (normalized.headD default).features.length 0
        minFeatureValues := minValues
        maxFeatureValues := maxValues }
    .ok ((trainLoop learningRate normalized numEpochs model0).1, normalized)

/-- Per-example update rule in the words of the specification: error is
prediction minus label, the bias decreases by the learning rate times the
error, and every coefficient decreases by the learning rate times the
error times the matching feature. -/
def stepSpec (learningRate : ℚ) (model : Model) (ex : Example) : Model :=
  let prediction := Predict model ex
  let error := prediction - ex.label
  { model with
    bias := model.bias - learningRate * error
    coeficients := model.coeficients.mapIdx fun j c =>
      c - learningRate * error * ex.features.getD j 0 }

/-- Per-example errors of one epoch, following the specification: each
error is computed with the parameters current when its example is
visited. -/
def epochErrors (learningRate : ℚ) : List Example → Model → List ℚ
  | [], _ => []
  | ex :: rest, model =>
    (Predict model ex - ex.label) ::
      epochErrors learningRate rest (stepSpec learningRate model ex)

/-- Loss printed after an epoch by Train from pkg/ml/ml.go: the square
root of the accumulated squared error divided by the data-set size. -/
noncomputable def reportedLoss (sumError : ℚ) (n : ℕ) : ℝ :=
  Real.sqrt ((sumError / (n : ℚ) : ℚ) : ℝ)

/-- Per-epoch loss of the dense trainer as a function of the model state
entering the epoch. -/
noncomputable def denseEpochLoss (learningRate : ℚ) (dataSet : List Example)
    (model : Model) : ℝ :=
  reportedLoss (trainEpoch learningRate dataSet model).2 dataSet.length

/-- Root-mean-squared error of a list of raw errors, in the words of the
specification. -/
noncomputable def rmse (errors : List ℚ) (n : ℕ) : ℝ :=
  Real.sqrt (((errors.map fun e => e * e).sum / (n : ℚ) : ℚ) : ℝ)

theorem trainStep_eq (learningRate : ℚ) (model : Model) (s : ℚ) (ex : Example) :
    trainStep learningRate (model, s) ex =
      (stepSpec learningRate model ex,
        s + (Predict model ex - ex.label) * (Predict model ex - ex.label)) :=
  rfl

theorem foldl_trainStep_fst (learningRate : ℚ) (dataSet : List Example) :
    ∀ (model : Model) (s : ℚ),
      (dataSet.foldl (trainStep learningRate) (model, s)).1 =
        dataSet.foldl (stepSpec learningRate) model := by
  induction dataSet with
  | nil => intro model s; rfl
  | cons ex rest ih =>
    intro model s
    rw [List.foldl_cons, List.foldl_cons, trainStep_eq]
    exact ih _ _

theorem foldl_trainStep_snd (learningRate : ℚ) (dataSet : List Example) :
    ∀ (model : Model) (s : ℚ),
      (dataSet.foldl (trainStep learningRate) (model, s)).2 =
        s + ((epochErrors learningRate dataSet model).map fun e => e * e).sum := by
  induction dataSet with
  | nil => intro model s; simp [epochErrors]
  | cons ex rest ih =>
    intro model s
    rw [List.foldl_cons, trainStep_eq, ih]
    simp [epochErrors]
    ring

theorem trainLoop_fst (learningRate : ℚ) (dataSet : List Example) :
    ∀ (numEpochs : ℕ) (model : Model),
      (trainLoop learningRate dataSet numEpochs model).1 =
        (fun m => dataSet.foldl (stepSpec learningRate) m)^[numEpochs] model := by
  intro numEpochs
  induction numEpochs with
  | zero => intro model; rfl
  | succ k ih =>
    intro model
    rw [Function.iterate_succ_apply]
    show (trainLoop learningRate dataSet k (trainEpoch learningRate dataSet model).1).1 = _
    rw [ih]
    congr 1
    exact foldl_trainStep_fst learningRate dataSet model 0

theorem stepSpec_minFeatureValues (learningRate : ℚ) (model : Model) (ex : Example) :
    (stepSpec learningRate model ex).minFeatureValues = model.minFeatureValues :=
  rfl

theorem stepSpec_maxFeatureValues (learningRate : ℚ) (model : Model) (ex : Example) :
    (stepSpec learningRate model ex).maxFeatureValues = model.maxFeatureValues :=
  rfl

theorem foldl_stepSpec_minFeatureValues (learningRate : ℚ) (dataSet : List Example) :
    ∀ (model : Model),
      (dataSet.foldl (stepSpec learningRate) model).minFeatureValues =
        model.minFeatureValues := by
  induction dataSet with
  | nil => intro model; rfl
  | cons ex rest ih =>
    intro model
    rw [List.foldl_cons, ih, stepSpec_minFeatureValues]

theorem foldl_stepSpec_maxFeatureValues (learningRate : ℚ) (dataSet : List Example) :
    ∀ (model : Model),
      (dataSet.foldl (stepSpec learningRate) model).maxFeatureValues =
        model.maxFeatureValues := by
  induction dataSet with
  | nil => intro model; rfl
  | cons ex rest ih =>
    intro model
    rw [List.foldl_cons, ih, stepSpec_maxFeatureValues]

theorem trainLoop_minFeatureValues (learningRate : ℚ) (dataSet : List Example)
    (numEpochs : ℕ) (model : Model) :
    (trainLoop learningRate dataSet numEpochs model).1.minFeatureValues =
      model.minFeatureValues := by
  rw [trainLoop_fst]
  induction numEpochs generalizing model with
  | zero => rfl
  | succ k ih =>
    rw [Function.iterate_succ_apply, ih]
    exact foldl_stepSpec_minFeatureValues learningRate dataSet model

theorem trainLoop_maxFeatureValues (learningRate : ℚ) (dataSet : List Example)
    (numEpochs : ℕ) (model : Model) :
    (trainLoop learningRate dataSet numEpochs model).1.maxFeatureValues =
      model.maxFeatureValues := by
  rw [trainLoop_fst]
  induction numEpochs generalizing model with
  | zero => rfl
  | succ k ih =>
    rw [Function.iterate_succ_apply, ih]
    exact foldl_stepSpec_maxFeatureValues learningRate dataSet model

end ml

/-- Claim C3: for every non-empty dense data set accepted by the min/max
fit, the trainer iterates epochs 0 to numEpochs-1 and, within each epoch,
folds over the examples in data-set order without shuffling; each example
contributes the update error = prediction - label, bias -= lr * error,
coefficient[i] -= lr * error * feature[i] for every coefficient index,
starting from the zero model sized to the first example. -/
theorem dense_train_sgd_structure (d0 : ml.Example) (rest : List ml.Example)
    (learningRate : ℚ) (numEpochs : ℕ) (minValues maxValues : List ℚ)
    (hfit : ml.fitMinMax (d0 :: rest) d0.features.length = .ok (minValues, maxValues)) :
    ml.Train (d0 :: rest) learningRate numEpochs =
      .ok ((fun m => (ml.NormalizeDatasetFeaturesWithLimits (d0 :: rest) maxValues
            minValues).foldl (ml.stepSpec learningRate) m)^[numEpochs]
          { bias := 0
            coeficients := List.replicate d0.features.length 0
            minFeatureValues := minValues
            maxFeatureValues := maxValues },
        ml.NormalizeDatasetFeaturesWithLimits (d0 :: rest) maxValues minValues) := by
  have hnorm : ml.NormalizeDataSetFeatures (d0 :: rest) =
      .ok (minValues, maxValues,
        ml.NormalizeDatasetFeaturesWithLimits (d0 :: rest) maxValues minValues) := by
    show (match ml.fitMinMax (d0 :: rest) d0.features.length with
      | Except.error e => Except.error e
      | Except.ok (mn, mx) =>
        Except.ok (mn, mx, ml.NormalizeDatasetFeaturesWithLimits (d0 :: rest) mx mn)) = _
    rw [hfit]
  have hlen : ((ml.NormalizeDatasetFeaturesWithLimits (d0 :: rest) maxValues
      minValues).headD default).features.length = d0.features.length := by
    simp [ml.NormalizeDatasetFeaturesWithLimits]
  unfold ml.Train
  rw [hnorm]
  dsimp only
  rw [hlen, ml.trainLoop_fst]

/-- Closed instance of dense_train_sgd_structure on a two-example data
set with one feature, learning rate 1 and one epoch. -/
theorem dense_train_sgd_structure_witness :
    ml.fitMinMax [⟨[1], 0⟩, ⟨[3], 1⟩] 1 = .ok ([1], [3]) ∧
    ml.Train [⟨[1], 0⟩, ⟨[3], 1⟩] 1 1 =
      .ok ((fun m => (ml.NormalizeDatasetFeaturesWithLimits [⟨[1], 0⟩, ⟨[3], 1⟩] [3]
            [1]).foldl (ml.stepSpec 1) m)^[1]
          { bias := 0
            coeficients := List.replicate 1 0
            minFeatureValues := [1]
            maxFeatureValues := [3] },
        ml.NormalizeDatasetFeaturesWithLimits [⟨[1], 0⟩, ⟨[3], 1⟩] [3] [1]) :=
  ⟨by decide, dense_train_sgd_structure ⟨[1], 0⟩ [⟨[3], 1⟩] 1 1 [1] [3] (by decide)⟩

/-- Claim C10: dense Train normalizes the data set as its first step: it
fits per-feature min/max limits, rescales the caller's examples in place
(the second component of the embedded Train result is the caller's data
set after the call, and it equals the rescaled data, not the original),
and stores the fitted limit vectors in the returned model. -/
theorem dense_train_normalizes_in_place (d0 : ml.Example) (rest : List ml.Example)
    (learningRate : ℚ) (numEpochs : ℕ) (minValues maxValues : List ℚ)
    (hfit : ml.fitMinMax (d0 :: rest) d0.features.length = .ok (minValues, maxValues)) :
    ∃ model : ml.Model,
      ml.Train (d0 :: rest) learningRate numEpochs =
        .ok (model, ml.NormalizeDatasetFeaturesWithLimits (d0 :: rest) maxValues minValues) ∧
      model.minFeatureValues = minValues ∧ model.maxFeatureValues = maxValues := by
  have hnorm : ml.NormalizeDataSetFeatures (d0 :: rest) =
      .ok (minValues, maxValues,
        ml.NormalizeDatasetFeaturesWithLimits (d0 :: rest) maxValues minValues) := by
    show (match ml.fitMinMax (d0 :: rest) d0.features.length with
      | Except.error e => Except.error e
      | Except.ok (mn, mx) =>
        Except.ok (mn, mx, ml.NormalizeDatasetFeaturesWithLimits (d0 :: rest) mx mn)) = _
    rw [hfit]
  refine ⟨(ml.trainLoop learningRate
      (ml.NormalizeDatasetFeaturesWithLimits (d0 :: rest) maxValues minValues) numEpochs
      { bias := 0
        coeficients := List.replicate ((ml.NormalizeDatasetFeaturesWithLimits (d0 :: rest)
          maxValues minValues).headD default).features.length 0
        minFeatureValues := minValues
        maxFeatureValues := maxValues }).1, ?_, ?_, ?_⟩
  · unfold ml.Train
    rw [hnorm]
  · rw [ml.trainLoop_minFeatureValues]
  · rw [ml.trainLoop_maxFeatureValues]

/-- Closed instance of dense_train_normalizes_in_place on a two-example
data set with one feature. -/
theorem dense_train_normalizes_in_place_witness :
    ml.fitMinMax [⟨[1], 0⟩, ⟨[3], 1⟩] 1 = .ok ([1], [3]) ∧
    ∃ model : ml.Model,
      ml.Train [⟨[1], 0⟩, ⟨[3], 1⟩] 1 1 =
        .ok (model, ml.NormalizeDatasetFeaturesWithLimits [⟨[1], 0⟩, ⟨[3], 1⟩] [3] [1]) ∧
      model.minFeatureValues = [1] ∧ model.maxFeatureValues = [3] :=
  ⟨by decide, dense_train_normalizes_in_place ⟨[1], 0⟩ [⟨[3], 1⟩] 1 1 [1] [3] (by decide)⟩

/- Sparse text-classification variant of package ml, from
   cmd/language/test (the copy of the package that trains on hashed
   features).  Namespace sml keeps its names apart from the dense
   variant. -/

namespace sml

/-- Size of the hash table, cmd/language variant: 2 to the 21. -/
def HashTableSize : ℕ := 2 ^ 21

/-- FNV-1a 32-bit hash over a byte sequence, as computed by hash/fnv
New32a: start from the offset basis, xor each byte in, multiply by the
FNV prime, all modulo 2 to the 32. -/
def fnv1a32 (bytes : List ℕ) : ℕ :=
  bytes.foldl (fun h b => ((h ^^^ b) * 16777619) % 2 ^ 32) 2166136261

/-- FeatureHash from the cmd/language ml package: one hashed index per
token, appended in order, each reduced modulo the hash table size.  A
token is its UTF-8 byte sequence. -/
def FeatureHash (features : List (List ℕ)) : List ℕ :=
  features.foldl (fun result feature => result ++ [fnv1a32 feature % HashTableSize]) []

/-- Example from the cmd/language ml package: the raw sentence, its
hashed feature indices and a label. -/
structure Example where
  sentence : String
  features : List ℕ
  label : ℚ
  deriving DecidableEq, Inhabited

/-- Model from the cmd/language ml package: a bias and a coefficient
table indexed by hashed feature index (a Go slice of length
HashTableSize, embedded as a total function). -/
structure Model where
  bias : ℚ
  coeficients : ℕ → ℚ

/-- Predict from the cmd/language ml package: the bias plus the sum of
the coefficients at the example's hashed indices, one addition per
occurrence, with no output activation. -/
def Predict (model : Model) (ex : Example) : ℚ :=
  ex.features.foldl (fun result i => result + model.coeficients i) model.bias

/-- Body of the inner training loop of Train from the cmd/language ml
package: error = prediction - label, bias -= lr * error, and the
coefficient at each hashed index of the example -= lr * error, once per
occurrence; the squared error accumulates. -/
def trainStep (learningRate : ℚ) (acc : Model × ℚ) (ex : Example) : Model × ℚ :=
  let model := acc.1
  let prediction := Predict model ex
  let error := prediction - ex.label
  ({ bias := model.bias - learningRate * error
     coeficients := ex.features.foldl
       (fun c j => fun k => if k = j then c j - learningRate * error else c k)
       model.coeficients },
    acc.2 + error * error)

/-- One epoch of Train from the cmd/language ml package. -/
def trainEpoch (learningRate : ℚ) (dataSet : List Example) (model : Model) : Model × ℚ :=
  dataSet.foldl (trainStep learningRate) (model, 0)

/-- Epoch loop of Train from the cmd/language ml package, collecting the
per-epoch sums of squared errors that the Go code prints after taking
the root of their means. -/
def trainLoop (learningRate : ℚ) (dataSet : List Example) : ℕ → Model → Model × List ℚ
  | 0, model => (model, [])
  | numEpochs + 1, model =>
    let p := trainEpoch learningRate dataSet model
    let r := trainLoop learningRate dataSet numEpochs p.1
    (r.1, p.2 :: r.2)

/-- Train from the cmd/language ml package: starts from the zero model
(bias zero, a zero coefficient table of length HashTableSize) and runs
the epoch loop. -/
def Train (dataSet : List Example) (learningRate : ℚ) (numEpochs : ℕ) : Model × List ℚ :=
  trainLoop learningRate dataSet numEpochs { bias := 0, coeficients := fun _ => 0 }

/-- UTF-8 encoding of a single code point, the byte sequence Go produces
for each character when a string is converted to bytes. -/
def utf8Bytes (c : ℕ) : List ℕ :=
  if c < 128 then [c]
  else if c < 2048 then [192 + c / 64, 128 + c % 64]
  else if c < 65536 then [224 + c / 4096, 128 + c / 64 % 64, 128 + c % 64]
  else [240 + c / 262144, 128 + c / 4096 % 64, 128 + c / 64 % 64, 128 + c % 64]

/-- Byte sequence of a Go string: the UTF-8 bytes of its characters. -/
def stringBytes (s : String) : List ℕ :=
  (s.data.map fun c => utf8Bytes c.toNat).flatten

/-- Per-example errors of one epoch of the sparse trainer, with each
error computed at the parameters current when its example is visited. -/
def epochErrors (learningRate : ℚ) : List Example → Model → List ℚ
  | [], _ => []
  | ex :: rest, model =>
    (Predict model ex - ex.label) ::
      epochErrors learningRate rest ((trainStep learningRate (model, 0) ex).1)

/-- Per-epoch loss printed by the sparse trainer: the square root of the
accumulated squared error divided by the data-set size. -/
noncomputable def sparseEpochLoss (learningRate : ℚ) (dataSet : List Example)
    (model : Model) : ℝ :=
  Real.sqrt (((trainEpoch learningRate dataSet model).2 / (dataSet.length : ℚ) : ℚ) : ℝ)

/-- Mean of the raw (signed) per-example errors of an epoch, in the words
of the specification. -/
noncomputable def sparseMeanRawError (learningRate : ℚ) (dataSet : List Example)
    (model : Model) : ℝ :=
  (((epochErrors learningRate dataSet model).sum / (dataSet.length : ℚ) : ℚ) : ℝ)

/-- Loop body of the CSV reader of the cmd/language ml package, after the
header: a record with fewer than two fields aborts the read; the first
field is split on spaces and feature-hashed; a label that fails to parse
is logged (second component) and the record skipped; otherwise the
example joins the data set.  The numeric label parser is a parameter
standing for strconv.ParseFloat. -/
def readLoop (parseLabel : String → Option ℚ) :
    List (List String) → Except String (List Example × List String)
  | [] => .ok ([], [])
  | record :: rest =>
    if record.length < 2 then .error "expected 2 values"
    else
      let sentence := record.headD ""
      let features := FeatureHash ((sentence.splitOn " ").map stringBytes)
      match parseLabel (record.getLastD "") with
      | none =>
        match readLoop parseLabel rest with
        | .error e => .error e
        | .ok (dataSet, warnings) => .ok (dataSet, record.getLastD "" :: warnings)
      | some label =>
        match readLoop parseLabel rest with
        | .error e => .error e
        | .ok (dataSet, warnings) =>
          .ok ({ sentence := sentence, features := features, label := label } :: dataSet,
            warnings)

/-- ReadCSVDataSet from the cmd/language ml package: the first record (the
header) is read and ignored, the remaining records go through the loop. -/
def ReadCSVDataSet (parseLabel : String → Option ℚ) (lines : List (List String)) :
    Except String (List Example × List String) :=
  match lines with
  | [] => .ok ([], [])
  | _ :: rest => readLoop parseLabel rest

end sml

/-- Logistic sigmoid named by the specification: 1 / (1 + exp (-x)). -/
noncomputable def sigmoid (x : ℝ) : ℝ := 1 / (1 + Real.exp (-x))

/-- Linear part of the sparse prediction in the words of the
specification: bias plus the sum of the coefficients over the example's
hashed indices, once per occurrence. -/
def specLinear (model : sml.Model) (ex : sml.Example) : ℚ :=
  model.bias + (ex.features.map model.coeficients).sum

/-- Sparse per-example update in the words of claim C2: gradient =
lr * error * prediction * (1 - prediction), bias -= gradient, and the
coefficient at each hashed index of the example -= gradient, once per
occurrence. -/
def claimStepC2 (learningRate : ℚ) (model : sml.Model) (ex : sml.Example) : sml.Model :=
  let prediction := sml.Predict model ex
  let error := prediction - ex.label
  let gradient := learningRate * error * prediction * (1 - prediction)
  { bias := model.bias - gradient
    coeficients := ex.features.foldl
      (fun c j => fun k => if k = j then c j - gradient else c k)
      model.coeficients }

/-- Sparse per-example update with the gradient the code uses: gradient =
lr * error, bias -= gradient, coefficient at each touched index -=
gradient once per occurrence. -/
def amendedStepC2 (learningRate : ℚ) (model : sml.Model) (ex : sml.Example) : sml.Model :=
  let prediction := sml.Predict model ex
  let error := prediction - ex.label
  let gradient := learningRate * error
  { bias := model.bias - gradient
    coeficients := ex.features.foldl
      (fun c j => fun k => if k = j then c j - gradient else c k)
      model.coeficients }

theorem foldl_add_coef (coef : ℕ → ℚ) :
    ∀ (fs : List ℕ) (b : ℚ),
      fs.foldl (fun r i => r + coef i) b = b + (fs.map coef).sum := by
  intro fs
  induction fs with
  | nil => intro b; simp
  | cons i rest ih =>
    intro b
    rw [List.foldl_cons, ih]
    simp
    ring

/-- Claim C1 counterexample: on the zero model and an example with no
hashed indices, the sparse Predict returns 0, while the sigmoid of the
linear part claimed by the specification is 1/2. -/
theorem sparse_predict_sigmoid_counterexample :
    ((sml.Predict ⟨0, fun _ => 0⟩ ⟨"", [], 0⟩ : ℚ) : ℝ) ≠
      sigmoid ((specLinear ⟨0, fun _ => 0⟩ ⟨"", [], 0⟩ : ℚ) : ℝ) := by
  have h1 : (sml.Predict ⟨0, fun _ => 0⟩ ⟨"", [], 0⟩ : ℚ) = 0 := rfl
  have h2 : (specLinear ⟨0, fun _ => 0⟩ ⟨"", [], 0⟩ : ℚ) = 0 := by
    simp [specLinear]
  rw [h1, h2]
  simp [sigmoid, Real.exp_zero]
  norm_num

/-- Claim C1 amended: for every sparse-mode model and example, Predict
returns the linear part itself — the bias plus the sum of the
coefficients over the example's hashed indices, once per occurrence in
the index sequence — with no sigmoid applied. -/
theorem sparse_predict_is_linear (model : sml.Model) (ex : sml.Example) :
    sml.Predict model ex = specLinear model ex := by
  unfold sml.Predict specLinear
  exact foldl_add_coef model.coeficients ex.features model.bias

theorem foldl_coef_update_count (g : ℚ) :
    ∀ (fs : List ℕ) (c : ℕ → ℚ) (k : ℕ),
      (fs.foldl (fun c j => fun k => if k = j then c j - g else c k) c) k =
        c k - g * fs.count k := by
  intro fs
  induction fs with
  | nil => intro c k; simp
  | cons j rest ih =>
    intro c k
    rw [List.foldl_cons, ih]
    by_cases hk : k = j
    · subst hk
      simp [List.count_cons]
      ring
    · simp [hk, List.count_cons]

/-- Claim C2 counterexample: with learning rate 1, the zero model and an
example with no hashed indices and label 1, the code's per-example update
moves the bias to 1, while the update claimed by the specification
(gradient damped by prediction times one minus prediction) leaves it
at 0. -/
theorem sparse_train_step_sigmoid_gradient_counterexample :
    (sml.trainStep 1 (⟨0, fun _ => 0⟩, 0) ⟨"", [], 1⟩).1.bias ≠
      (claimStepC2 1 ⟨0, fun _ => 0⟩ ⟨"", [], 1⟩).bias := by
  simp only [sml.trainStep, sml.Predict, claimStepC2, List.foldl_nil]
  norm_num

/-- Claim C2 amended: in sparse training the per-example update uses
gradient = lr * error with error = prediction - label: the bias decreases
by the gradient and the coefficient at each hashed index decreases by the
gradient once per occurrence, so its net decrease is the gradient times
the occurrence count of that index. -/
theorem sparse_train_step_update (learningRate : ℚ) (model : sml.Model) (ex : sml.Example) :
    (sml.trainStep learningRate (model, 0) ex).1 = amendedStepC2 learningRate model ex ∧
    (sml.trainStep learningRate (model, 0) ex).1.bias =
      model.bias - learningRate * (sml.Predict model ex - ex.label) ∧
    ∀ k : ℕ, (sml.trainStep learningRate (model, 0) ex).1.coeficients k =
      model.coeficients k -
        learningRate * (sml.Predict model ex - ex.label) * (ex.features.count k : ℚ) := by
  refine ⟨rfl, rfl, ?_⟩
  intro k
  show (ex.features.foldl
    (fun c j => fun k => if k = j then c j - learningRate * (sml.Predict model ex - ex.label) else c k)
    model.coeficients) k = _
  rw [foldl_coef_update_count]

namespace sml

theorem trainStep_pair_eq (learningRate : ℚ) (model : Model) (s : ℚ) (ex : Example) :
    trainStep learningRate (model, s) ex =
      ((trainStep learningRate (model, 0) ex).1,
        s + (Predict model ex - ex.label) * (Predict model ex - ex.label)) :=
  rfl

theorem foldl_trainStep_sumsq (learningRate : ℚ) (dataSet : List Example) :
    ∀ (model : Model) (s : ℚ),
      (dataSet.foldl (trainStep learningRate) (model, s)).2 =
        s + ((epochErrors learningRate dataSet model).map fun e => e * e).sum := by
  induction dataSet with
  | nil => intro model s; simp [epochErrors]
  | cons ex rest ih =>
    intro model s
    rw [List.foldl_cons, trainStep_pair_eq, ih]
    simp [epochErrors]
    ring

end sml

/-- Claim C4 counterexample: on a one-example sparse data set whose only
example has no hashed indices and label 2, with the zero model, the
trainer's reported epoch loss is sqrt(4) = 2, while the mean raw error
named by the specification is -2. -/
theorem sparse_epoch_loss_mean_raw_error_counterexample :
    sml.sparseEpochLoss 1 [⟨"", [], 2⟩] ⟨0, fun _ => 0⟩ ≠
      sml.sparseMeanRawError 1 [⟨"", [], 2⟩] ⟨0, fun _ => 0⟩ := by
  have h1 : ((sml.trainEpoch 1 [⟨"", [], 2⟩] ⟨0, fun _ => 0⟩).2 : ℚ) = 4 := by
    norm_num [sml.trainEpoch, sml.trainStep, sml.Predict]
  have h2 : (sml.epochErrors 1 [⟨"", [], 2⟩] ⟨0, fun _ => 0⟩) = [-2] := by
    norm_num [sml.epochErrors, sml.Predict]
  unfold sml.sparseEpochLoss sml.sparseMeanRawError
  rw [h1, h2]
  simp
  intro h
  have h3 := Real.sqrt_nonneg (4 : ℝ)
  rw [h] at h3
  norm_num at h3

/-- Claim C4 amended: in both modes the per-epoch aggregate loss reported
by the trainer is the root of the mean of the squared per-example errors
(RMSE), each error taken at the parameters current when its example was
visited; the sparse trainer does not report the mean raw error. -/
theorem epoch_loss_is_rmse_both_modes :
    (∀ (learningRate : ℚ) (dataSet : List ml.Example) (model : ml.Model),
      ml.denseEpochLoss learningRate dataSet model =
        ml.rmse (ml.epochErrors learningRate dataSet model) dataSet.length) ∧
    (∀ (learningRate : ℚ) (dataSet : List sml.Example) (model : sml.Model),
      sml.sparseEpochLoss learningRate dataSet model =
        ml.rmse (sml.epochErrors learningRate dataSet model) dataSet.length) := by
  constructor
  · intro learningRate dataSet model
    unfold ml.denseEpochLoss ml.reportedLoss ml.rmse ml.trainEpoch
    rw [ml.foldl_trainStep_snd]
    simp
  · intro learningRate dataSet model
    unfold sml.sparseEpochLoss ml.rmse sml.trainEpoch
    rw [sml.foldl_trainStep_sumsq]
    simp

theorem foldl_append_singleton {α β : Type} (f : α → β) :
    ∀ (l : List α) (init : List β),
      l.foldl (fun r a => r ++ [f a]) init = init ++ l.map f := by
  intro l
  induction l with
  | nil => intro init; simp
  | cons a rest ih =>
    intro init
    rw [List.foldl_cons, ih]
    simp

/-- Claim C6: FeatureHash returns exactly one index per input token, in
order with duplicates retained (it is the elementwise hash of the token
list), its output length equals the input token count, and every index
lies below the hash table size. -/
theorem featureHash_length_and_range (features : List (List ℕ)) :
    sml.FeatureHash features =
      features.map (fun feature => sml.fnv1a32 feature % sml.HashTableSize) ∧
    (sml.FeatureHash features).length = features.length ∧
    ∀ idx ∈ sml.FeatureHash features, idx < sml.HashTableSize := by
  have hmap : sml.FeatureHash features =
      features.map (fun feature => sml.fnv1a32 feature % sml.HashTableSize) := by
    unfold sml.FeatureHash
    rw [foldl_append_singleton]
    simp
  refine ⟨hmap, ?_, ?_⟩
  · rw [hmap, List.length_map]
  · intro idx hidx
    rw [hmap] at hidx
    obtain ⟨feature, _, hfeq⟩ := List.mem_map.mp hidx
    rw [← hfeq]
    exact Nat.mod_lt _ (by norm_num [sml.HashTableSize])

/- N-gram expansion, function makeNgrams of the spago-based copy of the
   ml package (src/unnamed/part_000). -/

/-- Inner-loop body of makeNgrams: at position i, step j extends the
running feature with an underscore and the word at i + j and appends it,
provided i + j is in range; otherwise nothing happens. -/
def gramStep (words : List String) (i : ℕ) (p : String × List String) (j : ℕ) :
    String × List String :=
  if i + j < words.length then
    (p.1 ++ "_" ++ words.getD (i + j) "",
      p.2 ++ [p.1 ++ "_" ++ words.getD (i + j) ""])
  else p

/-- Grams emitted at position i by makeNgrams: the word itself, then the
inner loop for j from 1 to ngrams - 1. -/
def gramsAt (words : List String) (i : ℕ) (ngrams : ℕ) : List String :=
  ((List.range' 1 (ngrams - 1)).foldl (gramStep words i)
    (words.getD i "", [words.getD i ""])).2

/-- Outer loop of makeNgrams over the positions i, counting down the
remaining positions. -/
def makeNgramsAux (words : List String) (ngrams : ℕ) : ℕ → ℕ → List String
  | _, 0 => []
  | i, rem + 1 => gramsAt words i ngrams ++ makeNgramsAux words ngrams (i + 1) rem

/-- makeNgrams from the spago-based copy of the ml package: for every
position, the word plus its cumulative joins with the following words up
to length ngrams, truncated at the end of the sentence. -/
def makeNgrams (words : List String) (ngrams : ℕ) : List String :=
  makeNgramsAux words ngrams 0 words.length

theorem gramsAt_of_le_one (words : List String) (i n : ℕ) (h : n ≤ 1) :
    gramsAt words i n = [words.getD i ""] := by
  unfold gramsAt
  have h0 : n - 1 = 0 := by omega
  rw [h0]
  rfl

theorem makeNgramsAux_unigram (words : List String) (n : ℕ) (hn : n ≤ 1) :
    ∀ (rem i : ℕ), i + rem = words.length →
      makeNgramsAux words n i rem = words.drop i := by
  intro rem
  induction rem with
  | zero =>
    intro i hi
    rw [List.drop_eq_nil_of_le (by omega)]
    rfl
  | succ k ih =>
    intro i hi
    show gramsAt words i n ++ makeNgramsAux words n (i + 1) k = _
    rw [gramsAt_of_le_one words i n hn, ih (i + 1) (by omega)]
    have hlt : i < words.length := by omega
    rw [List.drop_eq_getElem_cons hlt, List.getD_eq_getElem words "" hlt]
    rfl

theorem gramStep_snd_length (words : List String) (i : ℕ) (p : String × List String)
    (j : ℕ) :
    ((gramStep words i p j).2).length =
      p.2.length + if i + j < words.length then 1 else 0 := by
  unfold gramStep
  split
  · simp
  · simp

theorem foldl_gramStep_length (words : List String) (i : ℕ) :
    ∀ (k : ℕ) (p : String × List String),
      (((List.range' 1 k).foldl (gramStep words i) p).2).length =
        p.2.length + min k (words.length - i - 1) := by
  intro k
  induction k with
  | zero => intro p; simp
  | succ k ih =>
    intro p
    rw [List.range'_concat, List.foldl_append, List.foldl_cons, List.foldl_nil,
      gramStep_snd_length, ih]
    have h1 : 1 + 1 * k = 1 + k := by omega
    rw [h1]
    by_cases h : i + (1 + k) < words.length
    · rw [if_pos h]; omega
    · rw [if_neg h]; omega

/-- Claim C5: the n-gram expander with order 0 or 1 returns exactly the
input unigram sequence; on input a b c with order 2 it returns a, a_b, b,
b_c, c; and every position i emits min n (length - i) grams when n is at
least 1, so the positions within n - 1 of the end produce shorter grams
instead of failing. -/
theorem makeNgrams_spec :
    (∀ words : List String, makeNgrams words 0 = words) ∧
    (∀ words : List String, makeNgrams words 1 = words) ∧
    makeNgrams ["a", "b", "c"] 2 = ["a", "a_b", "b", "b_c", "c"] ∧
    (∀ (words : List String) (n i : ℕ), 1 ≤ n → i < words.length →
      (gramsAt words i n).length = min n (words.length - i)) := by
  refine ⟨?_, ?_, ?_, ?_⟩
  · intro words
    unfold makeNgrams
    rw [makeNgramsAux_unigram words 0 (by omega) words.length 0 (by omega), List.drop_zero]
  · intro words
    unfold makeNgrams
    rw [makeNgramsAux_unigram words 1 (by omega) words.length 0 (by omega), List.drop_zero]
  · decide
  · intro words n i hn hi
    unfold gramsAt
    rw [foldl_gramStep_length]
    simp only [List.length_cons, List.length_nil]
    omega

/-- Closed instance of the quantified parts of makeNgrams_spec. -/
theorem makeNgrams_spec_witness :
    1 ≤ 3 ∧ (1 : ℕ) < (["p", "q"] : List String).length ∧
    (gramsAt ["p", "q"] 1 3).length = min 3 ((["p", "q"] : List String).length - 1) :=
  ⟨by decide, by decide, makeNgrams_spec.2.2.2 ["p", "q"] 3 1 (by decide) (by decide)⟩

theorem getD_map_of_lt {α β : Type} (l : List α) (f : α → β) (i : ℕ) (d : β) (e : α)
    (h : i < l.length) : (l.map f).getD i d = f (l.getD i e) := by
  rw [List.getD_eq_getElem _ d (by rw [List.length_map]; exact h), List.getElem_map,
    List.getD_eq_getElem _ e h]

theorem getD_mapIdx_of_lt {α β : Type} (l : List α) (f : ℕ → α → β) (j : ℕ) (d : β)
    (e : α) (h : j < l.length) : (l.mapIdx f).getD j d = f j (l.getD j e) := by
  rw [List.getD_eq_getElem _ d (by rw [List.length_mapIdx]; exact h), List.getElem_mapIdx,
    List.getD_eq_getElem _ e h]

/-- Claim C8: on a dense data set whose feature 0 is constant, the fitted
limits have max equal to min at that feature (here both 3, so the
denominator max - min is 0), and the in-place normalization divides by
max - min at every in-range position with no guard, so the constant
feature is sent through a division by zero.  In the rational embedding
that division returns 0; under IEEE float64 it yields NaN. -/
theorem normalize_division_by_zero_unguarded :
    ml.fitMinMax [⟨[3, 1], 0⟩, ⟨[3, 2], 1⟩] 2 = .ok ([3, 1], [3, 2]) ∧
    ([3, 2] : List ℚ).getD 0 0 - ([3, 1] : List ℚ).getD 0 0 = 0 ∧
    (∀ (dataSet : List ml.Example) (maxValues minValues : List ℚ) (i j : ℕ),
      i < dataSet.length → j < maxValues.length →
      j < ((dataSet.getD i default).features).length →
      ((ml.NormalizeDatasetFeaturesWithLimits dataSet maxValues minValues).getD i
        default).features.getD j 0 =
        ((dataSet.getD i default).features.getD j 0 - minValues.getD j 0) /
          (maxValues.getD j 0 - minValues.getD j 0)) := by
  refine ⟨by decide, by norm_num, ?_⟩
  intro dataSet maxValues minValues i j hi hj hjf
  unfold ml.NormalizeDatasetFeaturesWithLimits
  rw [getD_map_of_lt _ _ i default default hi]
  dsimp only
  rw [getD_mapIdx_of_lt _ _ j 0 0 hjf]
  rw [if_pos hj]

/-- Closed instance of the universal part of
normalize_division_by_zero_unguarded, at the constant feature of the
two-example data set, where the denominator is zero. -/
theorem normalize_division_by_zero_unguarded_witness :
    (0 : ℕ) < ([⟨[3, 1], 0⟩, ⟨[3, 2], 1⟩] : List ml.Example).length ∧
    (0 : ℕ) < ([3, 2] : List ℚ).length ∧
    (0 : ℕ) < ((([⟨[3, 1], 0⟩, ⟨[3, 2], 1⟩] : List ml.Example).getD 0
      default).features).length ∧
    ((ml.NormalizeDatasetFeaturesWithLimits [⟨[3, 1], 0⟩, ⟨[3, 2], 1⟩] [3, 2]
      [3, 1]).getD 0 default).features.getD 0 0 =
      ((([⟨[3, 1], 0⟩, ⟨[3, 2], 1⟩] : List ml.Example).getD 0 default).features.getD 0 0 -
        ([3, 1] : List ℚ).getD 0 0) /
        (([3, 2] : List ℚ).getD 0 0 - ([3, 1] : List ℚ).getD 0 0) :=
  ⟨by decide, by decide, by decide,
    normalize_division_by_zero_unguarded.2.2 [⟨[3, 1], 0⟩, ⟨[3, 2], 1⟩] [3, 2] [3, 1] 0 0
      (by decide) (by decide) (by decide)⟩

theorem readLoop_ok (parseLabel : String → Option ℚ) :
    ∀ rows : List (List String), (∀ r ∈ rows, 2 ≤ r.length) →
      sml.readLoop parseLabel rows =
        .ok (rows.filterMap (fun r => (parseLabel (r.getLastD "")).map fun label =>
            { sentence := r.headD ""
              features := sml.FeatureHash (((r.headD "").splitOn " ").map sml.stringBytes)
              label := label }),
          (rows.filter fun r => (parseLabel (r.getLastD "")).isNone).map
            fun r => r.getLastD "") := by
  intro rows
  induction rows with
  | nil => intro h; rfl
  | cons record rest ih =>
    intro h
    have hrec : 2 ≤ record.length := h record (by simp)
    have hrest : ∀ r ∈ rest, 2 ≤ r.length := fun r hr => h r (by simp [hr])
    cases hp : parseLabel (record.getLastD "") with
    | none =>
      simp only [sml.readLoop, if_neg (Nat.not_lt.mpr hrec), hp, ih hrest,
        List.filterMap_cons, List.filter_cons, List.map_cons]
      simp
    | some label =>
      simp only [sml.readLoop, if_neg (Nat.not_lt.mpr hrec), hp, ih hrest,
        List.filterMap_cons, List.filter_cons, List.map_cons]
      simp

/-- Claim C9: in sparse-mode CSV reading, when every data row has at
least two fields and some row's label fails to parse, the read does not
abort: it returns the data set of exactly the rows whose labels parse (in
order, hashed from the sentence field), and each failing row contributes
a logged warning (at least one is logged). -/
theorem sparse_read_skips_bad_labels (parseLabel : String → Option ℚ)
    (header : List String) (rows : List (List String))
    (hcols : ∀ r ∈ rows, 2 ≤ r.length)
    (hbad : ∃ r ∈ rows, parseLabel (r.getLastD "") = none) :
    sml.ReadCSVDataSet parseLabel (header :: rows) =
      .ok (rows.filterMap (fun r => (parseLabel (r.getLastD "")).map fun label =>
          { sentence := r.headD ""
            features := sml.FeatureHash (((r.headD "").splitOn " ").map sml.stringBytes)
            label := label }),
        (rows.filter fun r => (parseLabel (r.getLastD "")).isNone).map
          fun r => r.getLastD "") ∧
    1 ≤ ((rows.filter fun r => (parseLabel (r.getLastD "")).isNone).map
        fun r => r.getLastD "").length := by
  constructor
  · show sml.readLoop parseLabel rows = _
    exact readLoop_ok parseLabel rows hcols
  · obtain ⟨r, hr, hrp⟩ := hbad
    have hmem : r ∈ rows.filter fun r => (parseLabel (r.getLastD "")).isNone :=
      List.mem_filter.mpr ⟨hr, by rw [hrp]; rfl⟩
    have hlen : 0 < (rows.filter fun r => (parseLabel (r.getLastD "")).isNone).length :=
      List.length_pos.mpr (List.ne_nil_of_mem hmem)
    rw [List.length_map]
    omega

/-- Closed instance of sparse_read_skips_bad_labels: a header plus one
well-formed row and one row whose label fails to parse. -/
theorem sparse_read_skips_bad_labels_witness :
    (∀ r ∈ ([["good", "1"], ["bad", "oops"]] : List (List String)), 2 ≤ r.length) ∧
    (∃ r ∈ ([["good", "1"], ["bad", "oops"]] : List (List String)),
      (fun s => if s = "1" then some (1 : ℚ) else none) (r.getLastD "") = none) ∧
    (sml.ReadCSVDataSet (fun s => if s = "1" then some (1 : ℚ) else none)
        (["h", "l"] :: [["good", "1"], ["bad", "oops"]]) =
      .ok (([["good", "1"], ["bad", "oops"]] : List (List String)).filterMap
          (fun r => (((fun s => if s = "1" then some (1 : ℚ) else none)
              (r.getLastD "")).map fun label =>
            { sentence := r.headD ""
              features := sml.FeatureHash (((r.headD "").splitOn " ").map sml.stringBytes)
              label := label })),
        (([["good", "1"], ["bad", "oops"]] : List (List String)).filter
            fun r => (((fun s => if s = "1" then some (1 : ℚ) else none)
              (r.getLastD "")).isNone)).map
          fun r => r.getLastD "") ∧
      1 ≤ ((([["good", "1"], ["bad", "oops"]] : List (List String)).filter
          fun r => (((fun s => if s = "1" then some (1 : ℚ) else none)
            (r.getLastD "")).isNone)).map
        fun r => r.getLastD "").length) :=
  ⟨by decide, ⟨["bad", "oops"], by decide, by rfl⟩,
    sparse_read_skips_bad_labels (fun s => if s = "1" then some (1 : ℚ) else none)
      ["h", "l"] [["good", "1"], ["bad", "oops"]]
      (by decide) ⟨["bad", "oops"], by decide, by rfl⟩⟩

/-- JSON values, as far as the Model serialization needs them.  Modelled
from the spec: the marshalling done by encoding/json is library code
outside this repository; the specification requires a structured record
with bias, coefficient vector and metadata whose numeric fields
round-trip exactly, so numbers carry exact rationals. -/
inductive Json where
  | num (q : ℚ)
  | arr (items : List Json)
  | obj (fields : List (String × Json))

/-- SaveModel from pkg/ml/ml.go: marshals the model as a JSON object with
its four exported fields.  Modelled from the spec for the encoding/json
part: field names become object keys, float64 values become numbers,
slices become arrays. -/
def SaveModel (model : ml.Model) : Json :=
  Json.obj [("Bias", Json.num model.bias),
    ("Coeficients", Json.arr (model.coeficients.map Json.num)),
    ("MinFeatureValues", Json.arr (model.minFeatureValues.map Json.num)),
    ("MaxFeatureValues", Json.arr (model.maxFeatureValues.map Json.num))]

/-- Decoder for a JSON number. -/
def decodeNum : Json → Option ℚ
  | Json.num q => some q
  | _ => none

/-- Decoder for a list of JSON numbers. -/
def decodeNumList : List Json → Option (List ℚ)
  | [] => some []
  | Json.num q :: rest => (decodeNumList rest).map fun t => q :: t
  | _ => none

/-- Decoder for a JSON array of numbers. -/
def decodeNums : Json → Option (List ℚ)
  | Json.arr items => decodeNumList items
  | _ => none

/-- LoadModel from pkg/ml/ml.go: unmarshals a JSON object back into a
Model.  Modelled from the spec for the encoding/json part: fields are
matched by name, independent of their order in the object. -/
def LoadModel (j : Json) : Option ml.Model :=
  match j with
  | Json.obj fields =>
    match (fields.lookup "Bias").bind decodeNum,
      (fields.lookup "Coeficients").bind decodeNums,
      (fields.lookup "MinFeatureValues").bind decodeNums,
      (fields.lookup "MaxFeatureValues").bind decodeNums with
    | some bias, some coeficients, some minV, some maxV =>
      some { bias := bias, coeficients := coeficients,
             minFeatureValues := minV, maxFeatureValues := maxV }
    | _, _, _, _ => none
  | _ => none

theorem decodeNumList_map_num :
    ∀ xs : List ℚ, decodeNumList (xs.map Json.num) = some xs := by
  intro xs
  induction xs with
  | nil => rfl
  | cons q rest ih => simp [decodeNumList, ih]

/-- Claim C7: loading a saved model reproduces the model exactly — bias,
coefficient vector and the min/max metadata vectors are all recovered
unchanged, for every model. -/
theorem model_save_load_roundtrip (model : ml.Model) :
    LoadModel (SaveModel model) = some model := by
  unfold SaveModel LoadModel
  simp [List.lookup, decodeNum, decodeNums, decodeNumList_map_num]

/-- Closed instance of featureHash_length_and_range on a one-token input. -/
theorem featureHash_length_and_range_witness :
    (sml.FeatureHash [[104, 105]]).length = ([[104, 105]] : List (List ℕ)).length ∧
    (sml.fnv1a32 [104, 105] % sml.HashTableSize) ∈ sml.FeatureHash [[104, 105]] ∧
    (sml.fnv1a32 [104, 105] % sml.HashTableSize) < sml.HashTableSize :=
  ⟨(featureHash_length_and_range [[104, 105]]).2.1, by decide,
    (featureHash_length_and_range [[104, 105]]).2.2 _ (by decide)⟩
